import Mathlib

/-!
Verification development for the oae-rest client library.

The repository exposes a remote REST API as callable wrapper functions.  Each
wrapper builds a URL path and a parameter mapping and delegates to the shared
request helper `RestUtil.RestRequest`.  The wrapper modules (collections,
folders, authentication) are present in the sources and are embedded here
directly.  The shared request core (`lib/util.js` with `RestRequest` and
`encodeURIComponent`, and `lib/model.js` with `RestContext`) is not among the
sources, so it is modelled from the specification; every definition doing so
says it in its doc comment.
-/

namespace OaeRest

/-- HTTP methods used by the library: GET, POST, PUT, DELETE. -/
inductive Method
  | get
  | post
  | put
  | delete
deriving DecidableEq

/-- Value in a parameter mapping: a scalar string, an array of strings
(encoded as a repeated key), or absent (`undefined` in JavaScript). -/
inductive ParamValue
  | str (s : String)
  | arr (vs : List String)
  | undef
deriving DecidableEq

/-- Parameter mapping in insertion order, as a JavaScript object literal. -/
abbrev Params := List (String × ParamValue)

/-- Uppercase hexadecimal digit character for a value below 16. -/
def hexDigit (n : Nat) : Char :=
  if n < 10 then Char.ofNat (48 + n) else Char.ofNat (55 + n)

/-- Numeric value of a hexadecimal digit character (0 on other input). -/
def hexVal (c : Char) : Nat :=
  if 48 ≤ c.toNat ∧ c.toNat ≤ 57 then c.toNat - 48
  else if 65 ≤ c.toNat ∧ c.toNat ≤ 70 then c.toNat - 55
  else if 97 ≤ c.toNat ∧ c.toNat ≤ 102 then c.toNat - 87
  else 0

/-- UTF-8 byte sequence of a unicode code point. -/
def utf8Bytes (n : Nat) : List Nat :=
  if n < 128 then [n]
  else if n < 2048 then [192 + n / 64, 128 + n % 64]
  else if n < 65536 then [224 + n / 4096, 128 + (n / 64) % 64, 128 + n % 64]
  else [240 + n / 262144, 128 + (n / 4096) % 64, 128 + (n / 64) % 64, 128 + n % 64]

/-- Characters that JavaScript's encodeURIComponent leaves unescaped:
letters, digits, and - _ . ! ~ * ' ( ). -/
def unreservedChar (c : Char) : Bool :=
  (65 ≤ c.toNat && c.toNat ≤ 90) || (97 ≤ c.toNat && c.toNat ≤ 122) ||
  (48 ≤ c.toNat && c.toNat ≤ 57) ||
  c = '-' || c = '_' || c = '.' || c = '!' || c = '~' || c = '*' ||
  c.toNat = 39 || c = '(' || c = ')'

/-- Percent escape of one byte: a percent sign followed by two uppercase
hexadecimal digits. -/
def escapeByte (b : Nat) : List Char :=
  ['%', hexDigit (b / 16), hexDigit (b % 16)]

/-- Percent encoding of one character: unreserved characters stand for
themselves, every other character becomes the percent escapes of its UTF-8
bytes. -/
def encodeChar (c : Char) : List Char :=
  if unreservedChar c then [c] else (utf8Bytes c.toNat).flatMap escapeByte

/-- Percent encoding of a character list. -/
def encodeChars (l : List Char) : List Char := l.flatMap encodeChar

/-- Modelled from the spec: `RestUtil.encodeURIComponent` lives in
`lib/util.js`, which is not among the sources; the spec and the wrapper code
present it as JavaScript's standard `encodeURIComponent`, percent-encoding
every character outside the unreserved set. -/
def encodeURIComponent (s : String) : String := ⟨encodeChars s.data⟩

/-- Percent decoding of a character list: a percent sign followed by two
characters is decoded as one byte, everything else stands for itself. -/
def percentDecode : List Char → List Char
  | [] => []
  | c :: h1 :: h2 :: rest =>
    if c = '%' then Char.ofNat (16 * hexVal h1 + hexVal h2) :: percentDecode rest
    else c :: percentDecode (h1 :: h2 :: rest)
  | c :: cs => c :: percentDecode cs

/-- Path built by `getCollection` (collections module): GET
`/api/collection/<collectionId>`. -/
def getCollectionPath (collectionId : String) : String :=
  "/api/collection/" ++ encodeURIComponent collectionId

/-- Path built by `shareCollection`: POST `/api/collection/<collectionId>/share`. -/
def shareCollectionPath (collectionId : String) : String :=
  "/api/collection/" ++ encodeURIComponent collectionId ++ "/share"

/-- Path built by `updateCollectionMembers`: POST
`/api/collection/<collectionId>/members`. -/
def updateCollectionMembersPath (collectionId : String) : String :=
  "/api/collection/" ++ encodeURIComponent collectionId ++ "/members"

/-- Path built by `getCollectionMembers`: GET
`/api/collection/<collectionId>/members`. -/
def getCollectionMembersPath (collectionId : String) : String :=
  "/api/collection/" ++ encodeURIComponent collectionId ++ "/members"

/-- Path built by `getCollectionsLibrary`: GET
`/api/collection/library/<principalId>`. -/
def getCollectionsLibraryPath (principalId : String) : String :=
  "/api/collection/library/" ++ encodeURIComponent principalId

/-- Path built by `addContentItemsToCollection`: POST
`/api/collection/<collectionId>/library`. -/
def addContentItemsToCollectionPath (collectionId : String) : String :=
  "/api/collection/" ++ encodeURIComponent collectionId ++ "/library"

/-- Path built by `getCollectionContentLibrary`: GET
`/api/collection/<collectionId>/library`. -/
def getCollectionContentLibraryPath (collectionId : String) : String :=
  "/api/collection/" ++ encodeURIComponent collectionId ++ "/library"

/-- Path built by `changePassword` (authentication module): POST
`/api/user/<userId>/password`. -/
def changePasswordPath (userId : String) : String :=
  "/api/user/" ++ encodeURIComponent userId ++ "/password"

/-- Path built by `exists`: GET `/api/auth/exists/<username>`. -/
def existsPath (username : String) : String :=
  "/api/auth/exists/" ++ encodeURIComponent username

/-- Path built by `existsOnTenant`: GET
`/api/auth/<tenantAlias>/exists/<username>`. -/
def existsOnTenantPath (tenantAlias username : String) : String :=
  "/api/auth/" ++ encodeURIComponent tenantAlias ++ "/exists/" ++
    encodeURIComponent username

/-- Path built by `_createTenantAdminUser`: the tenant alias is tested for
JavaScript truthiness (null or the empty string select the default path),
otherwise `util.format` splices its encoding into
`/api/auth/%s/createTenantAdminUser`. -/
def createTenantAdminUserPath (tenantAlias : Option String) : String :=
  match tenantAlias with
  | none => "/api/auth/createTenantAdminUser"
  | some a =>
    if a = "" then "/api/auth/createTenantAdminUser"
    else "/api/auth/" ++ encodeURIComponent a ++ "/createTenantAdminUser"

/-- Path built by `getFolder` (folders module): GET `/api/folder/<folderId>`. -/
def getFolderPath (folderId : String) : String :=
  "/api/folder/" ++ encodeURIComponent folderId

/-- Path built by `updateFolder`: POST `/api/folder/<folderId>`. -/
def updateFolderPath (folderId : String) : String :=
  "/api/folder/" ++ encodeURIComponent folderId

/-- Path built by `deleteFolder`: DELETE `/api/folder/<folderId>`. -/
def deleteFolderPath (folderId : String) : String :=
  "/api/folder/" ++ encodeURIComponent folderId

/-- Path built by `shareFolder`: POST `/api/folder/<folderId>/share`. -/
def shareFolderPath (folderId : String) : String :=
  "/api/folder/" ++ encodeURIComponent folderId ++ "/share"

/-- Path built by `updateFolderMembers`: POST `/api/folder/<folderId>/members`. -/
def updateFolderMembersPath (folderId : String) : String :=
  "/api/folder/" ++ encodeURIComponent folderId ++ "/members"

/-- Path built by `getFolderMembers`: GET `/api/folder/<folderId>/members`. -/
def getFolderMembersPath (folderId : String) : String :=
  "/api/folder/" ++ encodeURIComponent folderId ++ "/members"

/-- Path built by `getFoldersLibrary`: GET `/api/folder/library/<principalId>`. -/
def getFoldersLibraryPath (principalId : String) : String :=
  "/api/folder/library/" ++ encodeURIComponent principalId

/-- Path built by `removeFolderFromLibrary`: DELETE
`/api/folder/library/<principalId>/<folderId>`, assembled in three append
steps as in the source. -/
def removeFolderFromLibraryPath (principalId folderId : String) : String :=
  "/api/folder/library" ++ ("/" ++ encodeURIComponent principalId) ++
    ("/" ++ encodeURIComponent folderId)

/-- Path built by `addContentItemsToFolder`: POST
`/api/folder/<folderId>/library`. -/
def addContentItemsToFolderPath (folderId : String) : String :=
  "/api/folder/" ++ encodeURIComponent folderId ++ "/library"

/-- Path built by `removeContentItemsFromFolder`: DELETE
`/api/folder/<folderId>/library`. -/
def removeContentItemsFromFolderPath (folderId : String) : String :=
  "/api/folder/" ++ encodeURIComponent folderId ++ "/library"

/-- Path built by `getFolderContentLibrary`: GET
`/api/folder/<folderId>/library`. -/
def getFolderContentLibraryPath (folderId : String) : String :=
  "/api/folder/" ++ encodeURIComponent folderId ++ "/library"

/-- Parameter mapping built by `createFolder` (folders module), in source
order: displayName, description, visibility, managers, viewers. -/
def createFolderParams (displayName description visibility managers viewers : ParamValue) : Params :=
  [("displayName", displayName), ("description", description),
   ("visibility", visibility), ("managers", managers), ("viewers", viewers)]

/-- Parameter mapping built by `shareFolder`: the principal ids are sent as
the repeated key `viewers`. -/
def shareFolderParams (principalIds : List String) : Params :=
  [("viewers", ParamValue.arr principalIds)]

/-- Parameter mapping built by `login` (authentication module): POST to
`/api/auth/login` with username and password. -/
def loginParams (username password : String) : Params :=
  [("username", ParamValue.str username), ("password", ParamValue.str password)]

/-- Expansion of one parameter entry into concrete key-value pairs: a scalar
gives one pair, an array gives one pair per element in array order under the
same key, an absent value gives nothing. -/
def expandParam (k : String) (v : ParamValue) : List (String × String) :=
  match v with
  | .str s => [(k, s)]
  | .arr vs => vs.map (fun s => (k, s))
  | .undef => []

/-- Lexicographic comparison of character lists by code point, at most. -/
def leKeyChars : List Char → List Char → Bool
  | [], _ => true
  | _ :: _, [] => false
  | a :: as, b :: bs =>
    if a.toNat < b.toNat then true
    else if b.toNat < a.toNat then false
    else leKeyChars as bs

/-- Modelled from the spec (§4.2 step 2): the encoder orders the mapping
ascending by key for a deterministic serialization; keys are compared
lexicographically by code point. -/
def sortByKey (ps : Params) : Params :=
  List.insertionSort (fun a b => leKeyChars a.1.data b.1.data = true) ps

/-- Key-value pairs of the encoded query string or url-encoded form body, in
emission order. -/
def encodedPairs (ps : Params) : List (String × String) :=
  (sortByKey ps).flatMap (fun kv => expandParam kv.1 kv.2)

/-- Rendering of one encoded pair: percent-encoded key, equals sign,
percent-encoded value. -/
def renderPair (kv : String × String) : List Char :=
  encodeChars kv.1.data ++ '=' :: encodeChars kv.2.data

/-- Segments joined with ampersands. -/
def joinAmp : List (List Char) → List Char
  | [] => []
  | [x] => x
  | x :: y :: rest => x ++ '&' :: joinAmp (y :: rest)

/-- Modelled from the spec (§4.2 step 2): serialization of a parameter
mapping as a GET/DELETE query string, equally the url-encoded POST/PUT form
body: rendered pairs joined with ampersands. -/
def encodeQuery (ps : Params) : String :=
  ⟨joinAmp ((encodedPairs ps).map renderPair)⟩

/-- Compliant decoder, first step: split a query string at ampersands. -/
def splitAmp : List Char → List (List Char)
  | [] => [[]]
  | c :: cs =>
    match splitAmp cs with
    | [] => [[]]
    | s :: ss => if c = '&' then [] :: s :: ss else (c :: s) :: ss

/-- Compliant decoder, second step: split one segment at its first equals
sign into key part and value part. -/
def splitEq : List Char → List Char × List Char
  | [] => ([], [])
  | c :: cs =>
    if c = '=' then ([], cs)
    else ((splitEq cs).1.cons c, (splitEq cs).2)

/-- Compliant decoder for a query string: split on ampersands, split each
segment at its equals sign, percent-decode keys and values. -/
def decodeQuery (s : String) : List (String × String) :=
  if s.data = [] then []
  else (splitAmp s.data).map (fun seg =>
    (⟨percentDecode (splitEq seg).1⟩, ⟨percentDecode (splitEq seg).2⟩))

/-- Authentication mode of a RestContext: exactly one of anonymous,
username/password, or an established session token. -/
inductive AuthMode
  | anonymous
  | usernamePassword (username password : String)
  | session (token : String)
deriving DecidableEq

/-- Modelled from the spec (§3): RestContext, defined in `lib/model.js`
which is not among the sources — host, tagged authentication mode, extra
headers, referer override, and the one mutable slot for an adopted session. -/
structure RestContext where
  host : String
  authMode : AuthMode
  additionalHeaders : List (String × String) := []
  refererOverride : Option String := none
  sessionTok : Option String := none
deriving DecidableEq

/-- Raw transport-level response: status code, body text, and the session
token the server may hand back on a login (a set-cookie header). -/
structure RawResponse where
  statusCode : Nat
  bodyText : String
  setCookie : Option String := none
deriving DecidableEq

/-- The structured body fields the client inspects after parsing a
structured response: a numeric code and a server message. -/
structure ParsedBody where
  code : Option Nat := none
  msg : Option String := none
deriving DecidableEq

/-- Outcome of the body-parsing step (§4.2 step 5): the content type was not
structured data (the body stays raw, no error), or it was structured and
parsed, or it claimed structured data but failed to parse. -/
inductive ParseOutcome
  | unstructured
  | parsed (pb : ParsedBody)
  | failed
deriving DecidableEq

/-- Parsed body delivered in the body slot, when parsing produced one. -/
def parsedOf : ParseOutcome → Option ParsedBody
  | .parsed pb => some pb
  | _ => none

/-- Error taxonomy delivered in the completion handler's error slot:
transport failure, a server response with a 4xx/5xx status, or a ParseError
for a structured body that failed to parse — the raw text it wraps is still
delivered alongside via the raw response. -/
inductive RestError
  | transport
  | request (statusCode : Nat) (serverMessage : String)
  | parseFailure (rawText : String)
deriving DecidableEq

/-- Normalized triple delivered to the completion handler. -/
structure ExecResult where
  error : Option RestError
  body : Option ParsedBody
  rawResponse : Option RawResponse
deriving DecidableEq

/-- One wire-level request as recorded in the transport trace. -/
structure TransportRequest where
  method : Method
  url : String
  params : Params
  sessionTok : Option String
  headers : List (String × String)
  referer : Option String
deriving DecidableEq

/-- The transport: a function from a wire request to its outcome, where
`none` is a network-level failure (DNS, refused connection, timeout). -/
abbrev Transport := TransportRequest → Option RawResponse

/-- Body parser: the content-type inspection and parse step applied to a
response body, yielding one of the three parse outcomes. -/
abbrev BodyParser := String → ParseOutcome

/-- Modelled from the spec (§4.2 steps 1, 3, 4): the wire request for a call
on a context — host and path concatenated verbatim, the session token
attached from the session mode or the adopted session slot, extra headers
and referer forwarded. -/
def mkRequest (ctx : RestContext) (m : Method) (path : String) (ps : Params) :
    TransportRequest :=
  { method := m
    url := ctx.host ++ path
    params := ps
    sessionTok :=
      match ctx.authMode with
      | .session t => some t
      | _ => ctx.sessionTok
    headers := ctx.additionalHeaders
    referer := ctx.refererOverride }

/-- Server message carried by a RequestError: the msg field of the parsed
body when present, the raw body text otherwise. -/
def serverMessage (raw : RawResponse) (po : ParseOutcome) : String :=
  match po with
  | .parsed b => b.msg.getD raw.bodyText
  | _ => raw.bodyText

/-- Modelled from the spec (§4.2 step 5, §7): normalization of a successful
transport round trip — status at least 400 surfaces a RequestError together
with the parsed body (if any) and the raw response; status below 400
surfaces a null error with the parsed body and the raw response, except that
a structured body failing to parse surfaces a ParseError wrapping the raw
text, which stays available through the raw response. -/
def normalize (parse : BodyParser) (raw : RawResponse) : ExecResult :=
  if 400 ≤ raw.statusCode then
    { error := some (.request raw.statusCode (serverMessage raw (parse raw.bodyText)))
      body := parsedOf (parse raw.bodyText)
      rawResponse := some raw }
  else
    match parse raw.bodyText with
    | .failed =>
      { error := some (.parseFailure raw.bodyText), body := none, rawResponse := some raw }
    | .parsed pb => { error := none, body := some pb, rawResponse := some raw }
    | .unstructured => { error := none, body := none, rawResponse := some raw }

/-- One dispatch over the transport: build the wire request, deliver a
TransportError triple on network failure, the normalized response otherwise;
the issued request is returned for the trace. -/
def dispatchOnce (transport : Transport) (parse : BodyParser) (ctx : RestContext)
    (m : Method) (path : String) (ps : Params) : ExecResult × TransportRequest :=
  let req := mkRequest ctx m path ps
  match transport req with
  | none => ({ error := some .transport, body := none, rawResponse := none }, req)
  | some raw => (normalize parse raw, req)

/-- Whether the context can dispatch without the lazy login step: anonymous
mode, explicit session mode, or an already adopted session. -/
def sessionReady (ctx : RestContext) : Bool :=
  match ctx.authMode, ctx.sessionTok with
  | .usernamePassword _ _, none => false
  | _, _ => true

/-- Modelled from the spec (§4.2): Execute — in username/password mode with
no session yet, first POST the login endpoint with the credentials; on a
successful login adopt the returned session into the context and replay the
original request exactly once under it; otherwise dispatch directly.  The
result carries the context after the call (only the session slot can
differ), the normalized triple, and the trace of wire requests issued. -/
def execute (transport : Transport) (parse : BodyParser) (ctx : RestContext)
    (m : Method) (path : String) (ps : Params) :
    RestContext × ExecResult × List TransportRequest :=
  match ctx.authMode, ctx.sessionTok with
  | .usernamePassword u p, none =>
    let loginReq := mkRequest ctx .post "/api/auth/login" (loginParams u p)
    (match transport loginReq with
     | none =>
       (ctx, { error := some .transport, body := none, rawResponse := none }, [loginReq])
     | some raw =>
       if 400 ≤ raw.statusCode then (ctx, normalize parse raw, [loginReq])
       else
         match raw.setCookie with
         | some tok =>
           let ctx2 := { ctx with sessionTok := some tok }
           let r := dispatchOnce transport parse ctx2 m path ps
           (ctx2, r.1, [loginReq, r.2])
         | none =>
           let r := dispatchOnce transport parse ctx m path ps
           (ctx, r.1, [loginReq, r.2]))
  | _, _ =>
    let r := dispatchOnce transport parse ctx m path ps
    (ctx, r.1, [r.2])

/-- N repetitions of the same Execute call, threading the context through
and concatenating the transport traces. -/
def executeN (transport : Transport) (parse : BodyParser) (ctx : RestContext)
    (m : Method) (path : String) (ps : Params) :
    Nat → RestContext × List TransportRequest
  | 0 => (ctx, [])
  | n + 1 =>
    let r := execute transport parse ctx m path ps
    let rest := executeN transport parse r.1 m path ps n
    (rest.1, r.2.2 ++ rest.2)

/-- Configuration error: invalid RestContext construction. -/
inductive ConfigError
  | badHost
deriving DecidableEq

/-- Whether the first list starts with the second. -/
def startsWithChars : List Char → List Char → Bool
  | _, [] => true
  | [], _ :: _ => false
  | a :: as, b :: bs => if a = b then startsWithChars as bs else false

/-- Modelled from the spec (§4.1): syntactic validity of a base URL — an
http or https scheme followed by a nonempty authority. -/
def validBaseUrl (host : String) : Bool :=
  (startsWithChars host.data "http://".data && decide (7 < host.data.length)) ||
  (startsWithChars host.data "https://".data && decide (8 < host.data.length))

/-- Modelled from the spec (§4.1): Construct(host, authMode) — fails with a
ConfigurationError exactly when the host is not a syntactically valid base
URL, succeeds with a fresh context otherwise. -/
def construct (host : String) (am : AuthMode) : Except ConfigError RestContext :=
  if validBaseUrl host then .ok { host := host, authMode := am }
  else .error .badHost

/-- JavaScript object as an ordered list of own properties; assignment
replaces a property in place or appends a new one. -/
abbrev Obj := List (String × String)

/-- Property assignment `o[k] = v`: replace in place or append. -/
def setKey (o : Obj) (k v : String) : Obj :=
  match o with
  | [] => [(k, v)]
  | (a, b) :: t => if a = k then (a, v) :: t else (a, b) :: setKey t k v

/-- Copy all own properties of src into dest in order, one source step of
underscore's extend. -/
def extendObj (dest src : Obj) : Obj :=
  src.foldl (fun d kv => setKey d kv.1 kv.2) dest

/-- Heap of JavaScript objects; references are list indices. -/
abbrev Heap := List Obj

/-- The opts handling shared by `createGlobalAdminUser` and
`_createTenantAdminUser` (authentication module):
`opts = _.extend(\x7b\x7d, opts, \x7busername, password, displayName\x7d)` —
allocate a fresh empty object, copy the caller's opts into it, then the three
explicit arguments on top; the caller's heap cell is only read.  Returns the
heap after the call and the reference to the mapping sent to the server. -/
def adminUserOpts (h : Heap) (optsRef : Nat) (username password displayName : String) :
    Heap × Nat :=
  let freshRef := h.length
  let h2 := h ++ [[]]
  let src := h2.getD optsRef []
  let merged := extendObj (extendObj [] src)
    [("username", username), ("password", password), ("displayName", displayName)]
  (h2.set freshRef merged, freshRef)

/-- Budget of a path: a fixed number of slashes, all contributed by the
literal route segments, and no question mark, ampersand or space anywhere —
so no reserved character of a spliced identifier survives unescaped. -/
abbrev pathBudget (p : String) (k : Nat) : Prop :=
  List.count '/' p.data = k ∧ '?' ∉ p.data ∧ '&' ∉ p.data ∧ ' ' ∉ p.data

/-- Example response body: the 401 body of the anonymous-user scenario. -/
def exBody : String := "\x7b\"code\":401,\"msg\":\"Anonymous user\"\x7d"

/-- Example parser recognizing the scenario body as structured data. -/
def exParse : BodyParser := fun s =>
  if s = exBody then ParseOutcome.parsed { code := some 401, msg := some "Anonymous user" }
  else ParseOutcome.unstructured

/-- Example malformed structured body: truncated JSON text. -/
def pfBody : String := "\x7b\"code\":"

/-- Example raw 200 response carrying the malformed structured body. -/
def pfRaw : RawResponse := { statusCode := 200, bodyText := pfBody }

/-- Example parser: the malformed body claims structured data and fails to
parse; anything else counts as not structured. -/
def pfParse : BodyParser := fun s =>
  if s = pfBody then ParseOutcome.failed else ParseOutcome.unstructured

/-- Example transport answering every request with the malformed-body 200
response. -/
def pfTransport : Transport := fun _ => some pfRaw

/-- Example anonymous context against https example host. -/
def exCtx : RestContext := { host := "https://example.org", authMode := .anonymous }

/-- Example raw 401 response carrying the scenario body. -/
def exRaw : RawResponse := { statusCode := 401, bodyText := exBody }

/-- Example transport answering every request with the 401 response. -/
def exTransport : Transport := fun _ => some exRaw

/-- Example username/password context with no session yet. -/
def exCtxUP : RestContext :=
  { host := "https://t.example", authMode := .usernamePassword "alice" "secret" }

/-- Example raw login response handing back a session cookie. -/
def exLoginRaw : RawResponse := { statusCode := 200, bodyText := "", setCookie := some "sess" }

/-- Example raw 200 response for authenticated calls. -/
def exOkRaw : RawResponse := { statusCode := 200, bodyText := "ok" }

/-- Example transport: a session-less request is answered as the login, a
request carrying a session as the authenticated call. -/
def exTransport2 : Transport := fun r =>
  if r.sessionTok = none then some exLoginRaw else some exOkRaw

theorem leKeyChars_total : ∀ as bs, leKeyChars as bs = true ∨ leKeyChars bs as = true := by
  intro as
  induction as with
  | nil => intro bs; left; rfl
  | cons a as ih =>
    intro bs
    cases bs with
    | nil => right; rfl
    | cons b bs =>
      by_cases h1 : a.toNat < b.toNat
      · left; simp [leKeyChars, h1]
      · by_cases h2 : b.toNat < a.toNat
        · right; simp [leKeyChars, h2]
        · rcases ih bs with h | h
          · left; simp [leKeyChars, h1, h2, h]
          · right; simp [leKeyChars, h1, h2, h]

theorem leKeyChars_trans :
    ∀ as bs cs, leKeyChars as bs = true → leKeyChars bs cs = true →
      leKeyChars as cs = true := by
  intro as
  induction as with
  | nil => intro bs cs _ _; rfl
  | cons a as ih =>
    intro bs cs h1 h2
    cases bs with
    | nil => exact absurd h1 (by simp [leKeyChars])
    | cons b bs =>
      cases cs with
      | nil => exact absurd h2 (by simp [leKeyChars])
      | cons c cs =>
        simp only [leKeyChars] at h1 h2 ⊢
        by_cases hab : a.toNat < b.toNat
        · by_cases hbc : b.toNat < c.toNat
          · have hac : a.toNat < c.toNat := by omega
            simp [hac]
          · by_cases hcb : c.toNat < b.toNat
            · rw [if_neg hbc, if_pos hcb] at h2
              exact absurd h2 (by simp)
            · have hac : a.toNat < c.toNat := by omega
              simp [hac]
        · by_cases hba : b.toNat < a.toNat
          · rw [if_neg hab, if_pos hba] at h1
            exact absurd h1 (by simp)
          · rw [if_neg hab, if_neg hba] at h1
            by_cases hbc : b.toNat < c.toNat
            · have hac : a.toNat < c.toNat := by omega
              simp [hac]
            · by_cases hcb : c.toNat < b.toNat
              · rw [if_neg hbc, if_pos hcb] at h2
                exact absurd h2 (by simp)
              · rw [if_neg hbc, if_neg hcb] at h2
                have hac : ¬ a.toNat < c.toNat := by omega
                have hca : ¬ c.toNat < a.toNat := by omega
                rw [if_neg hac, if_neg hca]
                exact ih bs cs h1 h2

theorem leKeyChars_antisymm :
    ∀ as bs, leKeyChars as bs = true → leKeyChars bs as = true → as = bs := by
  intro as
  induction as with
  | nil =>
    intro bs h1 h2
    cases bs with
    | nil => rfl
    | cons b bs => exact absurd h2 (by simp [leKeyChars])
  | cons a as ih =>
    intro bs h1 h2
    cases bs with
    | nil => exact absurd h1 (by simp [leKeyChars])
    | cons b bs =>
      simp only [leKeyChars] at h1 h2
      by_cases hab : a.toNat < b.toNat
      · have hba : ¬ b.toNat < a.toNat := by omega
        simp [hab, hba] at h2
      · by_cases hba : b.toNat < a.toNat
        · simp [hab, hba] at h1
        · have hnat : a.toNat = b.toNat := by omega
          have hc : a = b := Char.eq_of_val_eq (UInt32.toNat.inj hnat)
          simp only [hab, hba, if_neg, not_false_eq_true] at h1 h2
          rw [hc, ih bs h1 h2]

theorem char_toNat_lt (c : Char) : c.toNat < 1114112 := by
  show c.val.toNat < 1114112
  have h := c.valid
  unfold UInt32.isValidChar Nat.isValidChar at h
  rcases h with h | ⟨h1, h2⟩
  · omega
  · exact h2

theorem utf8Bytes_lt (n : Nat) (hn : n < 1114112) : ∀ b ∈ utf8Bytes n, b < 256 := by
  intro b hb
  simp only [utf8Bytes] at hb
  by_cases h1 : n < 128
  · simp [h1] at hb; omega
  · by_cases h2 : n < 2048
    · simp [h1, h2] at hb
      have d1 : n / 64 < 32 := (Nat.div_lt_iff_lt_mul (by norm_num)).mpr (by omega)
      have d2 : n % 64 < 64 := Nat.mod_lt _ (by norm_num)
      rcases hb with rfl | rfl <;> omega
    · by_cases h3 : n < 65536
      · simp [h1, h2, h3] at hb
        have d1 : n / 4096 < 32 := (Nat.div_lt_iff_lt_mul (by norm_num)).mpr (by omega)
        have d2 : n / 64 % 64 < 64 := Nat.mod_lt _ (by norm_num)
        have d3 : n % 64 < 64 := Nat.mod_lt _ (by norm_num)
        rcases hb with rfl | rfl | rfl <;> omega
      · simp [h1, h2, h3] at hb
        have d1 : n / 262144 < 16 := (Nat.div_lt_iff_lt_mul (by norm_num)).mpr (by omega)
        have d2 : n / 4096 % 64 < 64 := Nat.mod_lt _ (by norm_num)
        have d3 : n / 64 % 64 < 64 := Nat.mod_lt _ (by norm_num)
        have d4 : n % 64 < 64 := Nat.mod_lt _ (by norm_num)
        rcases hb with rfl | rfl | rfl | rfl <;> omega

theorem hexDigit_range (m : Nat) (h : m < 16) :
    (48 ≤ (hexDigit m).toNat ∧ (hexDigit m).toNat ≤ 57) ∨
      (65 ≤ (hexDigit m).toNat ∧ (hexDigit m).toNat ≤ 70) := by
  interval_cases m <;> decide

theorem hexVal_hexDigit (m : Nat) (h : m < 16) : hexVal (hexDigit m) = m := by
  interval_cases m <;> decide

theorem encodeChar_safe (c : Char) :
    ∀ d ∈ encodeChar c, unreservedChar d = true ∨ d.toNat = 37 ∨
      ((48 ≤ d.toNat ∧ d.toNat ≤ 57) ∨ (65 ≤ d.toNat ∧ d.toNat ≤ 70)) := by
  intro d hd
  unfold encodeChar at hd
  split at hd
  · next h =>
    simp only [List.mem_singleton] at hd
    subst hd
    exact Or.inl h
  · next h =>
    simp only [List.mem_flatMap] at hd
    obtain ⟨b, hb, hdb⟩ := hd
    have hb256 : b < 256 := utf8Bytes_lt c.toNat (char_toNat_lt c) b hb
    simp only [escapeByte, List.mem_cons, List.mem_singleton, List.not_mem_nil,
      or_false] at hdb
    rcases hdb with rfl | rfl | rfl
    · right; left; rfl
    · right; right
      exact hexDigit_range (b / 16) ((Nat.div_lt_iff_lt_mul (by norm_num)).mpr (by omega))
    · right; right
      exact hexDigit_range (b % 16) (Nat.mod_lt _ (by norm_num))

theorem encodeChars_safe (l : List Char) :
    ∀ d ∈ encodeChars l, unreservedChar d = true ∨ d.toNat = 37 ∨
      ((48 ≤ d.toNat ∧ d.toNat ≤ 57) ∨ (65 ≤ d.toNat ∧ d.toNat ≤ 70)) := by
  intro d hd
  simp only [encodeChars, List.mem_flatMap] at hd
  obtain ⟨c, _, hd⟩ := hd
  exact encodeChar_safe c d hd

theorem encodeChars_not_special (l : List Char) (d : Char) (hd : d ∈ encodeChars l) :
    d ≠ '/' ∧ d ≠ '?' ∧ d ≠ '&' ∧ d ≠ ' ' ∧ d ≠ '=' := by
  have h := encodeChars_safe l d hd
  refine ⟨?_, ?_, ?_, ?_, ?_⟩ <;> rintro rfl <;> revert h <;> decide

theorem percentDecode_cons (c : Char) (cs : List Char) (h : c ≠ '%') :
    percentDecode (c :: cs) = c :: percentDecode cs := by
  cases cs with
  | nil => simp [percentDecode]
  | cons x t =>
    cases t with
    | nil => simp [percentDecode]
    | cons y rest => simp [percentDecode, h]

theorem percentDecode_escape (h1 h2 : Char) (rest : List Char) :
    percentDecode ('%' :: h1 :: h2 :: rest) =
      Char.ofNat (16 * hexVal h1 + hexVal h2) :: percentDecode rest := by
  simp [percentDecode]

theorem percentDecode_encodeChars (l : List Char) (h : ∀ c ∈ l, c.toNat < 128) :
    percentDecode (encodeChars l) = l := by
  induction l with
  | nil => rfl
  | cons c t ih =>
    have hc : c.toNat < 128 := h c (by simp)
    have ht : ∀ d ∈ t, d.toNat < 128 := fun d hd => h d (by simp [hd])
    have hcons : encodeChars (c :: t) = encodeChar c ++ encodeChars t := rfl
    rw [hcons]
    unfold encodeChar
    by_cases hu : unreservedChar c = true
    · rw [if_pos hu]
      have hpc : c ≠ '%' := by
        intro hEq
        subst hEq
        revert hu
        decide
      rw [List.singleton_append, percentDecode_cons c _ hpc, ih ht]
    · rw [if_neg hu]
      have h128 : utf8Bytes c.toNat = [c.toNat] := by
        unfold utf8Bytes
        rw [if_pos hc]
      rw [h128]
      simp only [List.flatMap_cons, List.flatMap_nil, List.append_nil]
      have hshape : escapeByte c.toNat ++ encodeChars t =
          '%' :: hexDigit (c.toNat / 16) :: hexDigit (c.toNat % 16) :: encodeChars t := rfl
      rw [hshape, percentDecode_escape]
      rw [hexVal_hexDigit _ ((Nat.div_lt_iff_lt_mul (by norm_num)).mpr (by omega))]
      rw [hexVal_hexDigit _ (Nat.mod_lt _ (by norm_num))]
      rw [Nat.div_add_mod, Char.ofNat_toNat, ih ht]

theorem splitAmp_ne_nil : ∀ l : List Char, splitAmp l ≠ [] := by
  intro l
  cases l with
  | nil => simp [splitAmp]
  | cons c cs =>
    simp only [splitAmp]
    cases splitAmp cs with
    | nil => simp
    | cons s ss =>
      by_cases h : c = '&' <;> simp [h]

theorem splitAmp_no_amp (xs : List Char) (h : '&' ∉ xs) : splitAmp xs = [xs] := by
  induction xs with
  | nil => rfl
  | cons c cs ih =>
    have hc : c ≠ '&' := by
      rintro rfl
      exact h (by simp)
    have hcs : '&' ∉ cs := fun hm => h (by simp [hm])
    simp [splitAmp, ih hcs, hc]

theorem splitAmp_append (xs rest : List Char) (h : '&' ∉ xs) :
    splitAmp (xs ++ '&' :: rest) = xs :: splitAmp rest := by
  induction xs with
  | nil =>
    simp only [List.nil_append, splitAmp]
    cases hsp : splitAmp rest with
    | nil => exact absurd hsp (splitAmp_ne_nil rest)
    | cons s ss => simp
  | cons c cs ih =>
    have hc : c ≠ '&' := by
      rintro rfl
      exact h (by simp)
    have hcs : '&' ∉ cs := fun hm => h (by simp [hm])
    have hstep : splitAmp ((c :: cs) ++ '&' :: rest) =
        match splitAmp (cs ++ '&' :: rest) with
        | [] => [[]]
        | s :: ss => if c = '&' then [] :: s :: ss else (c :: s) :: ss := rfl
    rw [hstep, ih hcs]
    simp [hc]

theorem splitEq_append (xs ys : List Char) (h : '=' ∉ xs) :
    splitEq (xs ++ '=' :: ys) = (xs, ys) := by
  induction xs with
  | nil => simp [splitEq]
  | cons c cs ih =>
    have hc : c ≠ '=' := by
      rintro rfl
      exact h (by simp)
    have hcs : '=' ∉ cs := fun hm => h (by simp [hm])
    simp [splitEq, hc, ih hcs]

theorem eq_not_mem_encodeChars (l : List Char) : '=' ∉ encodeChars l :=
  fun h => (encodeChars_not_special l _ h).2.2.2.2 rfl

theorem amp_not_mem_encodeChars (l : List Char) : '&' ∉ encodeChars l :=
  fun h => (encodeChars_not_special l _ h).2.2.1 rfl

theorem amp_not_mem_renderPair (kv : String × String) : '&' ∉ renderPair kv := by
  unfold renderPair
  intro hm
  rcases List.mem_append.mp hm with h | h
  · exact amp_not_mem_encodeChars _ h
  · rcases List.mem_cons.mp h with h | h
    · exact absurd h (by decide)
    · exact amp_not_mem_encodeChars _ h

theorem renderPair_ne_nil (kv : String × String) : renderPair kv ≠ [] := by
  unfold renderPair
  cases encodeChars kv.1.data <;> simp

theorem parse_renderPair (k v : String)
    (hk : ∀ c ∈ k.data, c.toNat < 128) (hv : ∀ c ∈ v.data, c.toNat < 128) :
    ((⟨percentDecode (splitEq (renderPair (k, v))).1⟩ : String),
     (⟨percentDecode (splitEq (renderPair (k, v))).2⟩ : String)) = (k, v) := by
  have hsplit : splitEq (renderPair (k, v)) = (encodeChars k.data, encodeChars v.data) :=
    splitEq_append _ _ (eq_not_mem_encodeChars k.data)
  rw [hsplit]
  simp only
  rw [percentDecode_encodeChars k.data hk, percentDecode_encodeChars v.data hv]

theorem sortByKey_perm (ps : Params) : List.Perm (sortByKey ps) ps :=
  List.perm_insertionSort _ _

theorem sortByKey_sorted (ps : Params) :
    List.Sorted (fun a b : String × ParamValue => leKeyChars a.1.data b.1.data = true)
      (sortByKey ps) := by
  haveI : IsTotal (String × ParamValue)
      (fun a b => leKeyChars a.1.data b.1.data = true) :=
    ⟨fun a b => leKeyChars_total a.1.data b.1.data⟩
  haveI : IsTrans (String × ParamValue)
      (fun a b => leKeyChars a.1.data b.1.data = true) :=
    ⟨fun a b c => leKeyChars_trans a.1.data b.1.data c.1.data⟩
  exact List.sorted_insertionSort _ _

theorem sortByKey_eq_of_perm (ps qs : Params) (h : List.Perm ps qs)
    (hnd : (ps.map Prod.fst).Nodup) : sortByKey ps = sortByKey qs := by
  have hperm : List.Perm (sortByKey ps) (sortByKey qs) :=
    (sortByKey_perm ps).trans (h.trans (sortByKey_perm qs).symm)
  have hndq : (qs.map Prod.fst).Nodup := ((h.map Prod.fst).nodup_iff).mp hnd
  have hne : ps.Pairwise (fun a b => a.1 ≠ b.1) := List.pairwise_map.mp hnd
  have hneq : qs.Pairwise (fun a b => a.1 ≠ b.1) := List.pairwise_map.mp hndq
  have hneP : (sortByKey ps).Pairwise (fun a b => a.1 ≠ b.1) :=
    ((sortByKey_perm ps).pairwise_iff (fun hxy => Ne.symm hxy)).mpr hne
  have hneQ : (sortByKey qs).Pairwise (fun a b => a.1 ≠ b.1) :=
    ((sortByKey_perm qs).pairwise_iff (fun hxy => Ne.symm hxy)).mpr hneq
  have hsP := List.Pairwise.and (sortByKey_sorted ps) hneP
  have hsQ := List.Pairwise.and (sortByKey_sorted qs) hneQ
  haveI : IsAntisymm (String × ParamValue)
      (fun a b => (leKeyChars a.1.data b.1.data = true) ∧ a.1 ≠ b.1) := by
    constructor
    intro a b h1 h2
    exfalso
    apply h1.2
    have hdata : a.1.data = b.1.data := leKeyChars_antisymm _ _ h1.1 h2.1
    calc a.1 = (⟨a.1.data⟩ : String) := rfl
      _ = (⟨b.1.data⟩ : String) := by rw [hdata]
      _ = b.1 := rfl
  exact List.eq_of_perm_of_sorted hperm hsP hsQ

theorem sortByKey_idem (ps : Params) (hnd : (ps.map Prod.fst).Nodup) :
    sortByKey (sortByKey ps) = sortByKey ps := by
  have hnd2 : ((sortByKey ps).map Prod.fst).Nodup :=
    (((sortByKey_perm ps).map Prod.fst).nodup_iff).mpr hnd
  exact sortByKey_eq_of_perm _ _ (sortByKey_perm ps) hnd2

theorem expandParam_fst (k : String) (v : ParamValue) :
    ∀ p ∈ expandParam k v, p.1 = k := by
  intro p hp
  cases v with
  | str s =>
    simp only [expandParam, List.mem_singleton] at hp
    subst hp
    rfl
  | arr vs =>
    simp only [expandParam, List.mem_map] at hp
    obtain ⟨a, _, ha⟩ := hp
    rw [← ha]
  | undef => simp [expandParam] at hp

theorem mem_fst_flatMap (k : String) (t : Params)
    (h : k ∈ (t.flatMap fun kv => expandParam kv.1 kv.2).map Prod.fst) :
    ∃ kv ∈ t, kv.1 = k := by
  simp only [List.mem_map, List.mem_flatMap] at h
  obtain ⟨p, ⟨kv, hkv, hp⟩, hfst⟩ := h
  exact ⟨kv, hkv, (expandParam_fst kv.1 kv.2 p hp).symm.trans hfst⟩

theorem undef_key_not_encoded_aux (k : String) :
    ∀ l : Params, l.Pairwise (fun a b => a.1 ≠ b.1) →
      (k, ParamValue.undef) ∈ l →
      k ∉ (l.flatMap fun kv => expandParam kv.1 kv.2).map Prod.fst := by
  intro l
  induction l with
  | nil =>
    intro _ hm
    simp at hm
  | cons x t ih =>
    intro hpw hm hk
    have hpw2 := List.pairwise_cons.mp hpw
    simp only [List.flatMap_cons, List.map_append, List.mem_append] at hk
    rcases List.mem_cons.mp hm with heq | hmem
    · cases heq
      rcases hk with hk | hk
      · simp [expandParam] at hk
      · obtain ⟨kv, hkv, hfst⟩ := mem_fst_flatMap k t hk
        exact hpw2.1 kv hkv hfst.symm
    · rcases hk with hk | hk
      · simp only [List.mem_map] at hk
        obtain ⟨p, hp, hfst⟩ := hk
        have hx1 : x.1 = k := by rw [← expandParam_fst x.1 x.2 p hp, hfst]
        exact hpw2.1 _ hmem hx1
      · exact ih hpw2.2 hmem hk

theorem dispatchOnce_snd (transport : Transport) (parse : BodyParser) (ctx : RestContext)
    (m : Method) (path : String) (ps : Params) :
    (dispatchOnce transport parse ctx m path ps).2 = mkRequest ctx m path ps := by
  cases h : transport (mkRequest ctx m path ps) <;> simp [dispatchOnce, h]

theorem execute_ready (transport : Transport) (parse : BodyParser) (ctx : RestContext)
    (m : Method) (path : String) (ps : Params) (h : sessionReady ctx = true) :
    execute transport parse ctx m path ps =
      (ctx, (dispatchOnce transport parse ctx m path ps).1, [mkRequest ctx m path ps]) := by
  obtain ⟨host, am, hdrs, ref, st⟩ := ctx
  cases am with
  | anonymous =>
    cases st <;> (rw [← dispatchOnce_snd transport parse _ m path ps]; rfl)
  | session t =>
    cases st <;> (rw [← dispatchOnce_snd transport parse _ m path ps]; rfl)
  | usernamePassword u p =>
    cases st with
    | none => simp [sessionReady] at h
    | some t =>
      rw [← dispatchOnce_snd transport parse _ m path ps]
      rfl

theorem executeN_ready (transport : Transport) (parse : BodyParser) (ctx : RestContext)
    (m : Method) (path : String) (ps : Params) (h : sessionReady ctx = true) :
    ∀ n, (executeN transport parse ctx m path ps n).2 =
        List.replicate n (mkRequest ctx m path ps) ∧
      (executeN transport parse ctx m path ps n).1 = ctx := by
  intro n
  induction n with
  | zero => exact ⟨rfl, rfl⟩
  | succ n ih =>
    have hex := execute_ready transport parse ctx m path ps h
    simp only [executeN, hex]
    exact ⟨by rw [ih.1]; simp [List.replicate_succ], ih.2⟩

theorem pathBudget_append (s t : String) (ks kt : Nat)
    (hs : pathBudget s ks) (ht : pathBudget t kt) : pathBudget (s ++ t) (ks + kt) := by
  obtain ⟨h1, h2, h3, h4⟩ := hs
  obtain ⟨g1, g2, g3, g4⟩ := ht
  refine ⟨?_, ?_, ?_, ?_⟩
  · rw [String.data_append, List.count_append, h1, g1]
  · rw [String.data_append]
    intro hm
    rcases List.mem_append.mp hm with hm | hm
    exacts [h2 hm, g2 hm]
  · rw [String.data_append]
    intro hm
    rcases List.mem_append.mp hm with hm | hm
    exacts [h3 hm, g3 hm]
  · rw [String.data_append]
    intro hm
    rcases List.mem_append.mp hm with hm | hm
    exacts [h4 hm, g4 hm]

theorem pathBudget_encode (s : String) : pathBudget (encodeURIComponent s) 0 := by
  refine ⟨?_, ?_, ?_, ?_⟩
  · rw [List.count_eq_zero]
    intro hm
    exact (encodeChars_not_special s.data _ hm).1 rfl
  · intro hm
    exact (encodeChars_not_special s.data _ hm).2.1 rfl
  · intro hm
    exact (encodeChars_not_special s.data _ hm).2.2.1 rfl
  · intro hm
    exact (encodeChars_not_special s.data _ hm).2.2.2.1 rfl

theorem lookup_cons_obj (k a b : String) (t : Obj) :
    List.lookup k ((a, b) :: t) = if k = a then some b else List.lookup k t := by
  rw [List.lookup_cons]
  by_cases h : k = a
  · subst h
    simp
  · have hb : (k == a) = false := beq_eq_false_iff_ne.mpr h
    rw [hb, if_neg h]

theorem lookup_setKey (o : Obj) (k k' v : String) :
    List.lookup k (setKey o k' v) = if k = k' then some v else List.lookup k o := by
  induction o with
  | nil =>
    have hs : setKey ([] : Obj) k' v = [(k', v)] := rfl
    rw [hs, lookup_cons_obj]
  | cons x t ih =>
    obtain ⟨a, b⟩ := x
    by_cases hak : a = k'
    · subst hak
      have hs : setKey ((a, b) :: t) a v = (a, v) :: t := by simp [setKey]
      rw [hs, lookup_cons_obj, lookup_cons_obj]
      by_cases h : k = a <;> simp [h]
    · have hs : setKey ((a, b) :: t) k' v = (a, b) :: setKey t k' v := by simp [setKey, hak]
      rw [hs, lookup_cons_obj, lookup_cons_obj]
      by_cases h : k = a
      · have hkk : ¬ k = k' := fun he => hak ((h.symm.trans he).symm ▸ rfl)
        rw [if_pos h, if_neg hkk, if_pos h]
      · rw [if_neg h, if_neg h, ih]

theorem lookup_none_of_not_mem (k : String) (t : Obj) (h : k ∉ t.map Prod.fst) :
    List.lookup k t = none := by
  induction t with
  | nil => rfl
  | cons x r ih =>
    obtain ⟨a, b⟩ := x
    simp only [List.map_cons, List.mem_cons] at h
    push_neg at h
    rw [lookup_cons_obj, if_neg h.1]
    exact ih h.2

theorem lookup_extendObj (src : Obj) :
    ∀ dest k, (src.map Prod.fst).Nodup →
      List.lookup k (extendObj dest src) =
        match List.lookup k src with
        | some v => some v
        | none => List.lookup k dest := by
  induction src with
  | nil =>
    intro dest k _
    simp [extendObj, List.lookup]
  | cons x t ih =>
    intro dest k hnd
    obtain ⟨a, b⟩ := x
    simp only [List.map_cons, List.nodup_cons] at hnd
    have hstep : extendObj dest ((a, b) :: t) = extendObj (setKey dest a b) t := rfl
    rw [hstep, ih (setKey dest a b) k hnd.2]
    by_cases h : k = a
    · subst h
      have hnone : List.lookup k t = none := lookup_none_of_not_mem k t hnd.1
      rw [hnone, lookup_cons_obj, if_pos rfl, lookup_setKey, if_pos rfl]
    · rw [lookup_cons_obj, if_neg h]
      cases hlt : List.lookup k t with
      | none => rw [lookup_setKey, if_neg h]
      | some v => rfl

theorem joinAmp_render_ne_nil (x : List Char) (hx : x ≠ []) (rest : List (List Char)) :
    joinAmp (x :: rest) ≠ [] := by
  cases rest with
  | nil => exact hx
  | cons y r =>
    have hstep : joinAmp (x :: y :: r) = x ++ '&' :: joinAmp (y :: r) := rfl
    rw [hstep]
    intro hcontra
    rcases List.append_eq_nil.mp hcontra with ⟨_, h2⟩
    exact List.cons_ne_nil _ _ h2

theorem decode_encode_aux (k : String) (hk : ∀ c ∈ k.data, c.toNat < 128) :
    ∀ vs : List String, vs ≠ [] → (∀ v ∈ vs, ∀ c ∈ v.data, c.toNat < 128) →
      (splitAmp (joinAmp (vs.map (fun v => renderPair (k, v))))).map
          (fun seg => ((⟨percentDecode (splitEq seg).1⟩ : String),
            (⟨percentDecode (splitEq seg).2⟩ : String))) =
        vs.map (fun v => (k, v)) := by
  intro vs
  induction vs with
  | nil =>
    intro hne _
    exact absurd rfl hne
  | cons v rest ih =>
    intro _ hAscii
    have hv : ∀ c ∈ v.data, c.toNat < 128 := hAscii v (by simp)
    have hrest : ∀ w ∈ rest, ∀ c ∈ w.data, c.toNat < 128 :=
      fun w hw => hAscii w (by simp [hw])
    cases rest with
    | nil =>
      have hj : joinAmp ([v].map (fun w => renderPair (k, w))) = renderPair (k, v) := rfl
      rw [hj, splitAmp_no_amp _ (amp_not_mem_renderPair (k, v))]
      simp only [List.map_cons, List.map_nil]
      rw [parse_renderPair k v hk hv]
    | cons w rest2 =>
      have hstep : joinAmp ((v :: w :: rest2).map (fun z => renderPair (k, z))) =
          renderPair (k, v) ++ '&' :: joinAmp ((w :: rest2).map (fun z => renderPair (k, z))) := rfl
      rw [hstep, splitAmp_append _ _ (amp_not_mem_renderPair (k, v))]
      simp only [List.map_cons]
      rw [parse_renderPair k v hk hv]
      exact congrArg (List.cons (k, v)) (ih (by simp) hrest)

theorem execute_fst (transport : Transport) (parse : BodyParser) (ctx : RestContext)
    (m : Method) (path : String) (ps : Params) :
    (execute transport parse ctx m path ps).1 = ctx ∨
      ∃ tok, ctx.sessionTok = none ∧
        (execute transport parse ctx m path ps).1 = { ctx with sessionTok := some tok } := by
  obtain ⟨host, am, hdrs, ref, st⟩ := ctx
  cases am with
  | anonymous =>
    left
    rw [execute_ready _ _ _ _ _ _ (by cases st <;> rfl)]
  | session t =>
    left
    rw [execute_ready _ _ _ _ _ _ (by cases st <;> rfl)]
  | usernamePassword u p =>
    cases st with
    | some tok =>
      left
      rw [execute_ready transport parse
        ⟨host, .usernamePassword u p, hdrs, ref, some tok⟩ m path ps rfl]
    | none =>
      cases htr : transport (mkRequest ⟨host, .usernamePassword u p, hdrs, ref, none⟩
          .post "/api/auth/login" (loginParams u p)) with
      | none =>
        left
        simp [execute, htr]
      | some raw =>
        by_cases h4 : 400 ≤ raw.statusCode
        · left
          simp [execute, htr, h4]
        · cases hck : raw.setCookie with
          | some tok =>
            right
            exact ⟨tok, rfl, by simp [execute, htr, h4, hck]⟩
          | none =>
            left
            simp [execute, htr, h4, hck]

/-- C1 (amended): for every Execute call whose transport round trip
succeeds, a status of at least 400 is delivered as a RequestError carrying
the status code and the server message, together with the parsed body (if
any) and the raw response; a status below 400 is delivered with a null error
and the parsed body and raw response when the body is not structured or
parses successfully, while a structured body that fails to parse is
delivered with ParseError wrapping the raw text, the raw response alongside. -/
theorem requestError_normalization (transport : Transport) (parse : BodyParser)
    (ctx : RestContext) (m : Method) (path : String) (ps : Params) (raw : RawResponse)
    (hready : sessionReady ctx = true)
    (hrt : transport (mkRequest ctx m path ps) = some raw) :
    (400 ≤ raw.statusCode →
      (execute transport parse ctx m path ps).2.1 =
        { error := some (RestError.request raw.statusCode
            (serverMessage raw (parse raw.bodyText)))
          body := parsedOf (parse raw.bodyText)
          rawResponse := some raw }) ∧
    (raw.statusCode < 400 → parse raw.bodyText ≠ ParseOutcome.failed →
      (execute transport parse ctx m path ps).2.1 =
        { error := none
          body := parsedOf (parse raw.bodyText)
          rawResponse := some raw }) ∧
    (raw.statusCode < 400 → parse raw.bodyText = ParseOutcome.failed →
      (execute transport parse ctx m path ps).2.1 =
        { error := some (RestError.parseFailure raw.bodyText)
          body := none
          rawResponse := some raw }) := by
  have hd : dispatchOnce transport parse ctx m path ps =
      (normalize parse raw, mkRequest ctx m path ps) := by
    simp [dispatchOnce, hrt]
  have hres : (execute transport parse ctx m path ps).2.1 = normalize parse raw := by
    rw [execute_ready transport parse ctx m path ps hready]
    show (dispatchOnce transport parse ctx m path ps).1 = _
    rw [hd]
  refine ⟨?_, ?_, ?_⟩
  · intro h4
    rw [hres]
    unfold normalize
    rw [if_pos h4]
  · intro h4 hpf
    rw [hres]
    unfold normalize
    rw [if_neg (Nat.not_le.mpr h4)]
    cases hpo : parse raw.bodyText with
    | failed => exact absurd hpo hpf
    | parsed pb => rfl
    | unstructured => rfl
  · intro h4 hpf
    rw [hres]
    unfold normalize
    rw [if_neg (Nat.not_le.mpr h4), hpf]

/-- Counterexample for C1 as frozen: a 200 response whose structured body
fails to parse is delivered with ParseError in the error slot — the error
slot is not null even though the status is below 400. -/
theorem requestError_normalization_counterexample :
    pfRaw.statusCode < 400 ∧
    pfTransport (mkRequest exCtx Method.get "/api/me" []) = some pfRaw ∧
    (execute pfTransport pfParse exCtx Method.get "/api/me" []).2.1.error =
      some (RestError.parseFailure pfBody) ∧
    (execute pfTransport pfParse exCtx Method.get "/api/me" []).2.1.error ≠ none := by
  refine ⟨by decide, rfl, by decide, by decide⟩

/-- Witness for C1: the 401 anonymous-user scenario — the error slot carries
RequestError(401, "Anonymous user"), the parsed body and raw response are
delivered alongside. -/
theorem requestError_normalization_witness :
    sessionReady exCtx = true ∧
    exTransport (mkRequest exCtx Method.get "/api/me" []) = some exRaw ∧
    400 ≤ exRaw.statusCode ∧
    (execute exTransport exParse exCtx Method.get "/api/me" []).2.1 =
      { error := some (RestError.request 401 "Anonymous user")
        body := some { code := some 401, msg := some "Anonymous user" }
        rawResponse := some exRaw } := by
  refine ⟨rfl, rfl, by decide, ?_⟩
  have h := (requestError_normalization exTransport exParse exCtx Method.get "/api/me" []
    exRaw rfl rfl).1 (by decide)
  exact h.trans (by decide)

/-- C2: in username/password mode with no session yet, Execute performs
exactly one internal login (POST to /api/auth/login with the credentials),
adopts the returned session into the context, and replays the original
request exactly once under it; the trace is exactly the login followed by
the one replay, whatever the replay's outcome. -/
theorem transparent_login_once (transport : Transport) (parse : BodyParser)
    (ctx : RestContext) (u p : String) (m : Method) (path : String) (ps : Params)
    (tok : String) (raw : RawResponse)
    (ham : ctx.authMode = AuthMode.usernamePassword u p)
    (hst : ctx.sessionTok = none)
    (hlogin : transport (mkRequest ctx .post "/api/auth/login" (loginParams u p)) = some raw)
    (hok : raw.statusCode < 400)
    (hcookie : raw.setCookie = some tok) :
    (execute transport parse ctx m path ps).1.sessionTok = some tok ∧
    (execute transport parse ctx m path ps).2.2 =
      [mkRequest ctx .post "/api/auth/login" (loginParams u p),
        mkRequest { ctx with sessionTok := some tok } m path ps] := by
  obtain ⟨host, am, hdrs, ref, st⟩ := ctx
  obtain rfl : am = AuthMode.usernamePassword u p := ham
  obtain rfl : st = (none : Option String) := hst
  have hnle : ¬ 400 ≤ raw.statusCode := Nat.not_le.mpr hok
  constructor
  · simp [execute, hlogin, hnle, hcookie]
  · simp [execute, hlogin, hnle, hcookie, dispatchOnce_snd]

/-- Witness for C2: the alice/secret scenario — the internal login POST is
issued first with the credentials, the session is adopted, and the original
GET is replayed once under it. -/
theorem transparent_login_once_witness :
    exCtxUP.authMode = AuthMode.usernamePassword "alice" "secret" ∧
    exCtxUP.sessionTok = none ∧
    exTransport2 (mkRequest exCtxUP .post "/api/auth/login" (loginParams "alice" "secret")) =
      some exLoginRaw ∧
    exLoginRaw.statusCode < 400 ∧
    exLoginRaw.setCookie = some "sess" ∧
    (execute exTransport2 exParse exCtxUP Method.get "/api/me" []).1.sessionTok = some "sess" ∧
    (execute exTransport2 exParse exCtxUP Method.get "/api/me" []).2.2 =
      [mkRequest exCtxUP .post "/api/auth/login" (loginParams "alice" "secret"),
        mkRequest { exCtxUP with sessionTok := some "sess" } Method.get "/api/me" []] := by
  have h := transparent_login_once exTransport2 exParse exCtxUP "alice" "secret"
    Method.get "/api/me" [] "sess" exLoginRaw rfl rfl (by decide) (by decide) rfl
  exact ⟨rfl, rfl, by decide, by decide, rfl, h.1, h.2⟩

/-- C3: the query-string encoding of a parameter mapping is byte-for-byte
independent of the insertion order of its keys, and equals the encoding of
the same mapping sorted ascending by key. -/
theorem encodeQuery_order_independent (ps qs : Params)
    (hperm : List.Perm ps qs) (hnd : (ps.map Prod.fst).Nodup) :
    encodeQuery ps = encodeQuery qs ∧ encodeQuery ps = encodeQuery (sortByKey ps) := by
  have h1 : sortByKey ps = sortByKey qs := sortByKey_eq_of_perm ps qs hperm hnd
  have h2 : sortByKey (sortByKey ps) = sortByKey ps := sortByKey_idem ps hnd
  constructor
  · unfold encodeQuery encodedPairs
    rw [h1]
  · unfold encodeQuery encodedPairs
    rw [h2]

/-- Witness for C3: the two insertion orders of a two-key mapping encode to
the same query string, equal to the key-sorted encoding. -/
theorem encodeQuery_order_independent_witness :
    List.Perm [("b", ParamValue.str "2"), ("a", ParamValue.str "1")]
      [("a", ParamValue.str "1"), ("b", ParamValue.str "2")] ∧
    ((([("b", ParamValue.str "2"), ("a", ParamValue.str "1")]) : Params).map Prod.fst).Nodup ∧
    encodeQuery [("b", ParamValue.str "2"), ("a", ParamValue.str "1")] =
      encodeQuery [("a", ParamValue.str "1"), ("b", ParamValue.str "2")] ∧
    encodeQuery [("b", ParamValue.str "2"), ("a", ParamValue.str "1")] =
      encodeQuery (sortByKey [("b", ParamValue.str "2"), ("a", ParamValue.str "1")]) := by
  have h := encodeQuery_order_independent
    [("b", ParamValue.str "2"), ("a", ParamValue.str "1")]
    [("a", ParamValue.str "1"), ("b", ParamValue.str "2")] (by decide) (by decide)
  exact ⟨by decide, by decide, h.1, h.2⟩

/-- C4: a key bound to an absent value is omitted entirely from the encoded
query string or form body — no emitted pair carries that key. -/
theorem undef_param_omitted (ps : Params) (k : String)
    (hmem : (k, ParamValue.undef) ∈ ps) (hnd : (ps.map Prod.fst).Nodup) :
    k ∉ (encodedPairs ps).map Prod.fst := by
  have hpw : ps.Pairwise (fun a b => a.1 ≠ b.1) := List.pairwise_map.mp hnd
  have hpwS : (sortByKey ps).Pairwise (fun a b => a.1 ≠ b.1) :=
    ((sortByKey_perm ps).pairwise_iff (fun hxy => Ne.symm hxy)).mpr hpw
  have hmemS : (k, ParamValue.undef) ∈ sortByKey ps := ((sortByKey_perm ps).mem_iff).mpr hmem
  exact undef_key_not_encoded_aux k (sortByKey ps) hpwS hmemS

/-- Witness for C4: the createFolder scenario — managers is undefined, so no
encoded pair of the form body carries the managers key. -/
theorem undef_param_omitted_witness :
    (("managers", ParamValue.undef) ∈ createFolderParams (ParamValue.str "Docs")
      (ParamValue.str "") (ParamValue.str "private") ParamValue.undef ParamValue.undef) ∧
    (((createFolderParams (ParamValue.str "Docs") (ParamValue.str "")
      (ParamValue.str "private") ParamValue.undef ParamValue.undef).map Prod.fst).Nodup) ∧
    "managers" ∉ (encodedPairs (createFolderParams (ParamValue.str "Docs")
      (ParamValue.str "") (ParamValue.str "private")
      ParamValue.undef ParamValue.undef)).map Prod.fst := by
  have h := undef_param_omitted (createFolderParams (ParamValue.str "Docs")
    (ParamValue.str "") (ParamValue.str "private") ParamValue.undef ParamValue.undef)
    "managers" (by decide) (by decide)
  exact ⟨by decide, by decide, h⟩

/-- C5: an array-valued parameter is encoded as repeated occurrences of the
same key, one per element in array order, and a compliant decoder recovers
the original array with order preserved. -/
theorem array_param_roundtrip (k : String) (vs : List String)
    (hk : ∀ c ∈ k.data, c.toNat < 128)
    (hvs : ∀ v ∈ vs, ∀ c ∈ v.data, c.toNat < 128) :
    encodedPairs [(k, ParamValue.arr vs)] = vs.map (fun v => (k, v)) ∧
    decodeQuery (encodeQuery [(k, ParamValue.arr vs)]) = vs.map (fun v => (k, v)) := by
  have hpairs : ∀ ws : List String, encodedPairs [(k, ParamValue.arr ws)] =
      ws.map (fun w => (k, w)) := by
    intro ws
    show (ws.map fun s => (k, s)) ++ [] = ws.map fun w => (k, w)
    rw [List.append_nil]
  refine ⟨hpairs vs, ?_⟩
  cases vs with
  | nil => rfl
  | cons v rest =>
    have hne : joinAmp ((v :: rest).map (fun w => renderPair (k, w))) ≠ [] :=
      joinAmp_render_ne_nil _ (renderPair_ne_nil (k, v)) _
    have hdata : (encodeQuery [(k, ParamValue.arr (v :: rest))]).data =
        joinAmp ((v :: rest).map (fun w => renderPair (k, w))) := by
      show joinAmp ((encodedPairs [(k, ParamValue.arr (v :: rest))]).map renderPair) = _
      rw [hpairs (v :: rest), List.map_map]
      rfl
    unfold decodeQuery
    rw [hdata, if_neg hne]
    exact decode_encode_aux k hk (v :: rest) (by simp) hvs

/-- Witness for C5: encoding tags = [a, b] yields the repeated-key query
string and decoding it recovers the array in order. -/
theorem array_param_roundtrip_witness :
    (∀ c ∈ "tags".data, c.toNat < 128) ∧
    (∀ v ∈ ["a", "b"], ∀ c ∈ v.data, c.toNat < 128) ∧
    encodedPairs [("tags", ParamValue.arr ["a", "b"])] = [("tags", "a"), ("tags", "b")] ∧
    decodeQuery (encodeQuery [("tags", ParamValue.arr ["a", "b"])]) =
      [("tags", "a"), ("tags", "b")] := by
  have h := array_param_roundtrip "tags" ["a", "b"] (by decide) (by decide)
  exact ⟨by decide, by decide, h.1, h.2⟩

/-- C6: an Execute call changes no field of its context — host, auth mode,
extra headers, referer override — except possibly the session slot, which
can only be populated when it was empty. -/
theorem execute_context_frame (transport : Transport) (parse : BodyParser)
    (ctx : RestContext) (m : Method) (path : String) (ps : Params) :
    ((execute transport parse ctx m path ps).1.host = ctx.host ∧
      (execute transport parse ctx m path ps).1.authMode = ctx.authMode ∧
      (execute transport parse ctx m path ps).1.additionalHeaders = ctx.additionalHeaders ∧
      (execute transport parse ctx m path ps).1.refererOverride = ctx.refererOverride) ∧
    ((execute transport parse ctx m path ps).1.sessionTok = ctx.sessionTok ∨
      ctx.sessionTok = none) := by
  rcases execute_fst transport parse ctx m path ps with h | ⟨tok, hnone, h⟩
  · rw [h]
    exact ⟨⟨rfl, rfl, rfl, rfl⟩, Or.inl rfl⟩
  · rw [h]
    exact ⟨⟨rfl, rfl, rfl, rfl⟩, Or.inr hnone⟩

/-- Witness for C6: the frame property at the concrete anonymous context. -/
theorem execute_context_frame_witness :
    ((execute exTransport exParse exCtx Method.get "/api/me" []).1.host = exCtx.host ∧
      (execute exTransport exParse exCtx Method.get "/api/me" []).1.authMode = exCtx.authMode ∧
      (execute exTransport exParse exCtx Method.get "/api/me" []).1.additionalHeaders =
        exCtx.additionalHeaders ∧
      (execute exTransport exParse exCtx Method.get "/api/me" []).1.refererOverride =
        exCtx.refererOverride) ∧
    ((execute exTransport exParse exCtx Method.get "/api/me" []).1.sessionTok =
        exCtx.sessionTok ∨ exCtx.sessionTok = none) :=
  execute_context_frame exTransport exParse exCtx Method.get "/api/me" []

/-- C7: Construct fails with a ConfigurationError exactly when the host is
empty or not a syntactically valid base URL, and for every valid host and
every authentication mode it succeeds with a fresh context. -/
theorem construct_valid_host (host : String) (am : AuthMode) :
    (construct host am = Except.error ConfigError.badHost ↔
      (host = "" ∨ validBaseUrl host = false)) ∧
    (validBaseUrl host = true →
      construct host am = Except.ok { host := host, authMode := am }) := by
  constructor
  · constructor
    · intro h
      by_cases hv : validBaseUrl host = true
      · unfold construct at h
        rw [if_pos hv] at h
        exact absurd h (by simp)
      · exact Or.inr (Bool.not_eq_true (validBaseUrl host) ▸ hv)
    · intro h
      have hv : validBaseUrl host = false := by
        rcases h with rfl | hf
        · decide
        · exact hf
      unfold construct
      rw [if_neg (by simp [hv])]
  · intro hv
    unfold construct
    rw [if_pos hv]

/-- Witness for C7: a valid https host constructs an anonymous context. -/
theorem construct_valid_host_witness :
    validBaseUrl "https://example.org" = true ∧
    construct "https://example.org" AuthMode.anonymous =
      Except.ok { host := "https://example.org", authMode := AuthMode.anonymous } :=
  ⟨by decide, (construct_valid_host "https://example.org" AuthMode.anonymous).2 (by decide)⟩

/-- Counterexample for C8 as frozen: on a username/password context with no
session established, two identical Execute calls put three wire requests on
the trace — the first call's transparent login plus the two dispatches — so
N calls do not make exactly N transport round trips for every context. -/
theorem execute_no_memoization_counterexample :
    exCtxUP.authMode = AuthMode.usernamePassword "alice" "secret" ∧
    exCtxUP.sessionTok = none ∧
    (executeN exTransport2 exParse exCtxUP Method.get "/api/me" [] 2).2.length = 3 ∧
    (executeN exTransport2 exParse exCtxUP Method.get "/api/me" [] 2).2.length ≠ 2 := by
  refine ⟨rfl, rfl, by decide, by decide⟩

/-- C8 (amended): N repetitions of the same Execute call on a context with
an established identity issue exactly N wire requests, each one the same
request — no memoization, deduplication or caching; in username/password
mode with no session, the lazy login of C2 adds its own wire requests on
top. -/
theorem execute_no_memoization (transport : Transport) (parse : BodyParser)
    (ctx : RestContext) (m : Method) (path : String) (ps : Params) (n : Nat)
    (hready : sessionReady ctx = true) :
    (executeN transport parse ctx m path ps n).2 =
      List.replicate n (mkRequest ctx m path ps) :=
  (executeN_ready transport parse ctx m path ps hready n).1

/-- Witness for C8: three repetitions of the same GET issue exactly three
identical wire requests. -/
theorem execute_no_memoization_witness :
    sessionReady exCtx = true ∧
    (executeN exTransport exParse exCtx Method.get "/api/me" [] 3).2 =
      List.replicate 3 (mkRequest exCtx Method.get "/api/me" []) :=
  ⟨rfl, execute_no_memoization exTransport exParse exCtx Method.get "/api/me" [] 3 rfl⟩

/-- C9: every identifier-splicing wrapper of the collections, folders and
authentication modules percent-encodes the identifier before splicing it
into the path: the encoded component contributes no reserved character, so
each path has exactly the fixed number of slashes of its literal route and
never a question mark, ampersand or space, whatever the identifier. -/
theorem wrapper_paths_escaped (cid pid fid uid uname ali tenant : String) :
    pathBudget (encodeURIComponent cid) 0 ∧
    pathBudget (getCollectionPath cid) 3 ∧
    pathBudget (shareCollectionPath cid) 4 ∧
    pathBudget (updateCollectionMembersPath cid) 4 ∧
    pathBudget (getCollectionMembersPath cid) 4 ∧
    pathBudget (getCollectionsLibraryPath pid) 4 ∧
    pathBudget (addContentItemsToCollectionPath cid) 4 ∧
    pathBudget (getCollectionContentLibraryPath cid) 4 ∧
    pathBudget (changePasswordPath uid) 4 ∧
    pathBudget (existsPath uname) 4 ∧
    pathBudget (existsOnTenantPath tenant uname) 5 ∧
    pathBudget (createTenantAdminUserPath none) 3 ∧
    pathBudget (createTenantAdminUserPath (some ali)) (if ali = "" then 3 else 4) ∧
    pathBudget (getFolderPath fid) 3 ∧
    pathBudget (updateFolderPath fid) 3 ∧
    pathBudget (deleteFolderPath fid) 3 ∧
    pathBudget (shareFolderPath fid) 4 ∧
    pathBudget (updateFolderMembersPath fid) 4 ∧
    pathBudget (getFolderMembersPath fid) 4 ∧
    pathBudget (getFoldersLibraryPath pid) 4 ∧
    pathBudget (removeFolderFromLibraryPath pid fid) 5 ∧
    pathBudget (addContentItemsToFolderPath fid) 4 ∧
    pathBudget (removeContentItemsFromFolderPath fid) 4 ∧
    pathBudget (getFolderContentLibraryPath fid) 4 := by
  refine ⟨pathBudget_encode cid, ?_, ?_, ?_, ?_, ?_, ?_, ?_, ?_, ?_, ?_, ?_, ?_, ?_,
    ?_, ?_, ?_, ?_, ?_, ?_, ?_, ?_, ?_, ?_⟩
  · exact pathBudget_append _ _ 3 0 (by decide) (pathBudget_encode cid)
  · exact pathBudget_append _ _ (3 + 0) 1
      (pathBudget_append _ _ 3 0 (by decide) (pathBudget_encode cid)) (by decide)
  · exact pathBudget_append _ _ (3 + 0) 1
      (pathBudget_append _ _ 3 0 (by decide) (pathBudget_encode cid)) (by decide)
  · exact pathBudget_append _ _ (3 + 0) 1
      (pathBudget_append _ _ 3 0 (by decide) (pathBudget_encode cid)) (by decide)
  · exact pathBudget_append _ _ 4 0 (by decide) (pathBudget_encode pid)
  · exact pathBudget_append _ _ (3 + 0) 1
      (pathBudget_append _ _ 3 0 (by decide) (pathBudget_encode cid)) (by decide)
  · exact pathBudget_append _ _ (3 + 0) 1
      (pathBudget_append _ _ 3 0 (by decide) (pathBudget_encode cid)) (by decide)
  · exact pathBudget_append _ _ (3 + 0) 1
      (pathBudget_append _ _ 3 0 (by decide) (pathBudget_encode uid)) (by decide)
  · exact pathBudget_append _ _ 4 0 (by decide) (pathBudget_encode uname)
  · exact pathBudget_append _ _ ((3 + 0) + 2) 0
      (pathBudget_append _ _ (3 + 0) 2
        (pathBudget_append _ _ 3 0 (by decide) (pathBudget_encode tenant)) (by decide))
      (pathBudget_encode uname)
  · decide
  · by_cases ha : ali = ""
    · rw [if_pos ha]
      have hpath : createTenantAdminUserPath (some ali) =
          "/api/auth/createTenantAdminUser" := by
        simp [createTenantAdminUserPath, ha]
      rw [hpath]
      decide
    · rw [if_neg ha]
      have hpath : createTenantAdminUserPath (some ali) =
          "/api/auth/" ++ encodeURIComponent ali ++ "/createTenantAdminUser" := by
        simp [createTenantAdminUserPath, ha]
      rw [hpath]
      exact pathBudget_append _ _ (3 + 0) 1
        (pathBudget_append _ _ 3 0 (by decide) (pathBudget_encode ali)) (by decide)
  · exact pathBudget_append _ _ 3 0 (by decide) (pathBudget_encode fid)
  · exact pathBudget_append _ _ 3 0 (by decide) (pathBudget_encode fid)
  · exact pathBudget_append _ _ 3 0 (by decide) (pathBudget_encode fid)
  · exact pathBudget_append _ _ (3 + 0) 1
      (pathBudget_append _ _ 3 0 (by decide) (pathBudget_encode fid)) (by decide)
  · exact pathBudget_append _ _ (3 + 0) 1
      (pathBudget_append _ _ 3 0 (by decide) (pathBudget_encode fid)) (by decide)
  · exact pathBudget_append _ _ (3 + 0) 1
      (pathBudget_append _ _ 3 0 (by decide) (pathBudget_encode fid)) (by decide)
  · exact pathBudget_append _ _ 4 0 (by decide) (pathBudget_encode pid)
  · exact pathBudget_append _ _ (3 + (1 + 0)) (1 + 0)
      (pathBudget_append _ _ 3 (1 + 0) (by decide)
        (pathBudget_append _ _ 1 0 (by decide) (pathBudget_encode pid)))
      (pathBudget_append _ _ 1 0 (by decide) (pathBudget_encode fid))
  · exact pathBudget_append _ _ (3 + 0) 1
      (pathBudget_append _ _ 3 0 (by decide) (pathBudget_encode fid)) (by decide)
  · exact pathBudget_append _ _ (3 + 0) 1
      (pathBudget_append _ _ 3 0 (by decide) (pathBudget_encode fid)) (by decide)
  · exact pathBudget_append _ _ (3 + 0) 1
      (pathBudget_append _ _ 3 0 (by decide) (pathBudget_encode fid)) (by decide)

/-- Witness for C9: identifiers containing slashes, question marks,
ampersands and spaces still yield paths with only the literal slashes and no
other reserved characters. -/
theorem wrapper_paths_escaped_witness :
    pathBudget (getCollectionPath "c:camb/ridge?x=1&y z") 3 ∧
    pathBudget (removeFolderFromLibraryPath "u:cam/a b" "f:cam/c?d") 5 := by
  obtain ⟨-, h1, -, -, -, -, -, -, -, -, -, -, -, -, -, -, -, -, -, -, h2, -, -, -⟩ :=
    wrapper_paths_escaped "c:camb/ridge?x=1&y z" "u:cam/a b" "f:cam/c?d" "" "" "" ""
  exact ⟨h1, h2⟩

theorem set_append_len (t : Heap) (a b : Obj) : (t ++ [a]).set t.length b = t ++ [b] := by
  induction t with
  | nil => rfl
  | cons x r ih =>
    show x :: (r ++ [a]).set r.length b = x :: (r ++ [b])
    rw [ih]

/-- C10: the mapping createGlobalAdminUser and createTenantAdminUser send is
the caller's opts extended with the explicit username, password and
displayName, the three explicit arguments overriding same-named keys of
opts, and the caller's opts object itself is left unmodified in the heap. -/
theorem adminUserOpts_override (h : Heap) (r : Nat) (u p d : String)
    (hr : r < h.length) (hnd : ((h.getD r []).map Prod.fst).Nodup) :
    ((adminUserOpts h r u p d).1.getD r [] = h.getD r []) ∧
    (∀ k, List.lookup k
        ((adminUserOpts h r u p d).1.getD (adminUserOpts h r u p d).2 []) =
      if k = "username" then some u
      else if k = "password" then some p
      else if k = "displayName" then some d
      else List.lookup k (h.getD r [])) := by
  have hsrc : (h ++ [[]]).getD r [] = h.getD r [] := List.getD_append _ _ _ _ hr
  have hfst : (adminUserOpts h r u p d).1 =
      h ++ [extendObj (extendObj [] (h.getD r []))
        [("username", u), ("password", p), ("displayName", d)]] := by
    show (h ++ [[]]).set h.length (extendObj (extendObj [] ((h ++ [[]]).getD r []))
        [("username", u), ("password", p), ("displayName", d)]) = _
    rw [hsrc, set_append_len]
  have hsnd : (adminUserOpts h r u p d).2 = h.length := rfl
  constructor
  · rw [hfst]
    exact List.getD_append _ _ _ _ hr
  · intro k
    rw [hfst, hsnd]
    have hdst : (h ++ [extendObj (extendObj [] (h.getD r []))
        [("username", u), ("password", p), ("displayName", d)]]).getD h.length [] =
        extendObj (extendObj [] (h.getD r []))
          [("username", u), ("password", p), ("displayName", d)] := by
      rw [List.getD_append_right _ _ _ _ (le_refl _)]
      simp
    rw [hdst]
    have hovnd : ((([("username", u), ("password", p), ("displayName", d)]) : Obj).map
        Prod.fst).Nodup := by
      show (["username", "password", "displayName"] : List String).Nodup
      decide
    rw [lookup_extendObj _ _ k hovnd]
    by_cases h1k : k = "username"
    · subst h1k
      rw [lookup_cons_obj, if_pos rfl]
      simp
    · by_cases h2k : k = "password"
      · subst h2k
        rw [lookup_cons_obj, if_neg h1k, lookup_cons_obj, if_pos rfl]
        simp [h1k]
      · by_cases h3k : k = "displayName"
        · subst h3k
          rw [lookup_cons_obj, if_neg h1k, lookup_cons_obj, if_neg h2k,
            lookup_cons_obj, if_pos rfl]
          simp [h1k, h2k]
        · rw [lookup_cons_obj, if_neg h1k, lookup_cons_obj, if_neg h2k,
            lookup_cons_obj, if_neg h3k]
          rw [if_neg h1k, if_neg h2k, if_neg h3k]
          show List.lookup k (extendObj [] (h.getD r [])) = List.lookup k (h.getD r [])
          rw [lookup_extendObj (h.getD r []) [] k hnd]
          cases hlk : List.lookup k (h.getD r []) with
          | none => rfl
          | some v => rfl

/-- Witness for C10: a heap with one opts object carrying displayName and
locale — after the call the opts cell is unchanged, displayName is
overridden in the sent mapping and locale is inherited. -/
theorem adminUserOpts_override_witness :
    (0 : Nat) < ([[("displayName", "Old"), ("locale", "en")]] : Heap).length ∧
    ((([[("displayName", "Old"), ("locale", "en")]] : Heap).getD 0 []).map Prod.fst).Nodup ∧
    (adminUserOpts [[("displayName", "Old"), ("locale", "en")]] 0 "bert" "pw" "Bert").1.getD
        0 [] = ([[("displayName", "Old"), ("locale", "en")]] : Heap).getD 0 [] ∧
    List.lookup "displayName"
      ((adminUserOpts [[("displayName", "Old"), ("locale", "en")]] 0 "bert" "pw" "Bert").1.getD
        (adminUserOpts [[("displayName", "Old"), ("locale", "en")]] 0 "bert" "pw" "Bert").2 []) =
      some "Bert" ∧
    List.lookup "locale"
      ((adminUserOpts [[("displayName", "Old"), ("locale", "en")]] 0 "bert" "pw" "Bert").1.getD
        (adminUserOpts [[("displayName", "Old"), ("locale", "en")]] 0 "bert" "pw" "Bert").2 []) =
      some "en" := by
  have h := adminUserOpts_override [[("displayName", "Old"), ("locale", "en")]] 0
    "bert" "pw" "Bert" (by decide) (by decide)
  refine ⟨by decide, by decide, h.1, ?_, ?_⟩
  · exact (h.2 "displayName").trans (by decide)
  · exact (h.2 "locale").trans (by decide)

end OaeRest
